import Mathlib

/- Shallow embedding of the datapath matching engine from
crates/datapath/src/index/rule.rs and crates/datapath/src/index/mod.rs.

Modelling choices:
* Rust strings are Lean String (a wrapper around List Char); byte slicing in
  the tokenizer is done at character level, which agrees with the source
  because the tokenizing regex only matches the ASCII characters star and
  slash.
* The external regex crate is modelled by a small regular-expression AST Reg
  whose constructors correspond one-to-one to the fragment shapes emitted by
  RegexSegment::to_regex_part, together with a Brzozowski-derivative matcher
  rmatch.  rmatch is a whole-string matcher, which models the anchors added
  in Rule::new.  The cls constructor carries a character predicate: the
  regex crate classes used by the source are single literal characters
  (regex escaping makes every literal character a literal), the class of all
  non-slash characters, and the dot (every character except newline).
* The external trie (trie_rs) is modelled by an association list of
  (skeleton, bucket) pairs in insertion order; predictive_search is the
  filter keeping entries whose key has the search key as a string prefix.
* The unreachable! branch of to_regex_part is modelled by the none result of
  toRegexPart, kept separate from the none of pattern compilation failure so
  that the never-panics claim is expressible.
* tracing warnings are side effects without influence on results and are not
  modelled. -/

namespace Datapath

/- Generic character-list helpers used by several components. -/

/-- Split a character list on a separator character, keeping empty pieces,
mirroring Rust str::split on a single char (the empty string yields one
empty piece). -/
def splitC (sep : Char) : List Char → List (List Char)
  | [] => [[]]
  | c :: rest =>
    if c = sep then [] :: splitC sep rest
    else
      match splitC sep rest with
      | [] => [[c]]
      | t :: ts => (c :: t) :: ts

/-- Join character lists with a separator character, mirroring
itertools join. -/
def joinC (sep : Char) : List (List Char) → List Char
  | [] => []
  | [x] => x
  | x :: y :: rest => x ++ sep :: joinC sep (y :: rest)

/-- Whitespace predicate modelling Rust str::trim for the ASCII whitespace
characters that can realistically occur in path queries. -/
def isWsChar (c : Char) : Bool := c == ' ' || c == '\t' || c == '\n' || c == '\r'

/-- Model of Rust str::trim. -/
def rustTrim (l : List Char) : List Char :=
  ((l.dropWhile isWsChar).reverse.dropWhile isWsChar).reverse

/-- Strip leading star pairs; helper for trimEndStarStar below. -/
def stripLead2Stars : List Char → List Char
  | '*' :: '*' :: rest => stripLead2Stars rest
  | l => l

/-- Model of Rust trim_end_matches applied with the two-star pattern:
repeatedly remove a trailing star pair. -/
def trimEndStarStar (l : List Char) : List Char := (stripLead2Stars l.reverse).reverse

/-- Model of Rust trim_matches applied with the slash character: remove all
leading and trailing slashes. -/
def trimSlashes (l : List Char) : List Char :=
  ((l.dropWhile (fun c => c == '/')).reverse.dropWhile (fun c => c == '/')).reverse

/- Regular expressions: the model of the external regex crate. -/

/-- Regular-expression AST.  cls p matches exactly the one-character strings
whose character satisfies p. -/
inductive Reg
  | emp
  | eps
  | cls (p : Char → Bool)
  | cat (a b : Reg)
  | alt (a b : Reg)
  | star (a : Reg)

/-- The regex fragment for a single slash, written [/] by the source. -/
def slashReg : Reg := .cls (fun c => c == '/')

/-- The regex dot: any character except newline (the regex crate default). -/
def dotReg : Reg := .cls (fun c => !(c == '\n'))

/-- The single-segment wildcard fragment emitted for a star by the source. -/
def nonSlashStar : Reg := .star (.cls (fun c => !(c == '/')))

/-- Postfix question mark of the regex crate. -/
def Reg.opt (r : Reg) : Reg := .alt .eps r

/-- Concatenation of a list of fragments, as the source concatenates the
fragment strings. -/
def cats (l : List Reg) : Reg := l.foldr Reg.cat Reg.eps

/-- Literal regex for a character list: regex escaping in the source makes
every character of an ordinary part a literal. -/
def charsReg (cs : List Char) : Reg := cs.foldr (fun c r => .cat (.cls (fun d => d == c)) r) .eps

/-- Nullability of a regular expression. -/
def nullable : Reg → Bool
  | .emp => false
  | .eps => true
  | .cls _ => false
  | .cat a b => nullable a && nullable b
  | .alt a b => nullable a || nullable b
  | .star _ => true

/-- Brzozowski derivative. -/
def deriv : Reg → Char → Reg
  | .emp, _ => .emp
  | .eps, _ => .emp
  | .cls p, c => if p c then .eps else .emp
  | .cat a b, c => if nullable a then .alt (.cat (deriv a c) b) (deriv b c) else .cat (deriv a c) b
  | .alt a b, c => .alt (deriv a c) (deriv b c)
  | .star a, c => .cat (deriv a c) (.star a)

/-- Anchored whole-string matching, modelling is_match of a regex compiled
with leading and trailing anchors. -/
def rmatch (r : Reg) (s : List Char) : Bool := nullable (s.foldl deriv r)

/- PathSegment (index/mod.rs). -/

/-- A path segment: a constant or a key=value partition. -/
inductive PathSegment
  | constant (s : String)
  | value (key : String) (v : String)
deriving DecidableEq

/-- FromStr for PathSegment: reject strings with a newline and the empty
string; split on the first equals sign, rejoining the remainder. -/
def PathSegment.fromStr (s : String) : Option PathSegment :=
  if s.data.contains '\n' then none
  else if s.data.isEmpty then none
  else if s.data.contains '=' then
    match splitC '=' s.data with
    | [] => none
    | key :: rest => some (.value (String.mk key) (String.mk (joinC '=' rest)))
  else some (.constant s)

/-- Display for PathSegment. -/
def PathSegment.toStr : PathSegment → String
  | .constant x => x
  | .value key v => key ++ "=" ++ v

/-- The value-normalization closure applied by the index: replace the value
of a partition segment with a star. -/
def normSeg : PathSegment → PathSegment
  | .value key _ => .value key "*"
  | x => x

/- Rule (index/rule.rs): pattern tokenizer. -/

/-- Emit a pending ordinary segment if it is nonempty (empty segments and
separator segments are dropped by the source). -/
def flush1 (cur : List Char) : List (List Char) :=
  if cur.isEmpty then [] else [cur]

/-- Emit the pending ordinary segment and the pending star run: a run of at
least two stars is its own segment, while at most one pending star belongs
to the ordinary segment. -/
def flushSegs (cur : List Char) (k : Nat) : List (List Char) :=
  if 2 ≤ k then flush1 cur ++ [List.replicate k '*']
  else flush1 (cur ++ List.replicate k '*')

/-- State machine equivalent to splitting the pattern with the tokenizing
regex of Rule::regex_str (matches of two or more stars or a slash become
boundaries, matched star runs are kept as segments, slashes and empty
pieces are dropped).  cur is the ordinary text accumulated since the last
boundary and k the length of the pending star run. -/
def segsA : List Char → List Char → Nat → List (List Char)
  | [], cur, k => flushSegs cur k
  | c :: rest, cur, k =>
    if c = '*' then segsA rest cur (k + 1)
    else if c = '/' then flushSegs cur k ++ segsA rest [] 0
    else if 2 ≤ k then flush1 cur ++ [List.replicate k '*'] ++ segsA rest [c] 0
    else segsA rest (cur ++ List.replicate k '*' ++ [c]) 0

/-- Segments of a pattern, as computed by the segment splitting block of
Rule::regex_str. -/
def segs (p : List Char) : List (List Char) := segsA p [] 0

/- Rule: segment classification and regex assembly. -/

/-- A classified pattern segment: an ordinary fragment or a doublestar. -/
inductive RegexSegment
  | single (frag : Reg)
  | doubleStar

/-- The fragment of an ordinary segment: split on single stars, make each
part a literal (the source escapes it), and join the parts with the
single-segment wildcard. -/
def fragOf (seg : List Char) : Reg :=
  cats (((splitC '*' seg).map charsReg).intersperse nonSlashStar)

/-- The classification loop of Rule::regex_str: all-star segments of length
at least two are doublestars (consecutive doublestars collapse, tracked by
the flag), except that longer star runs make the whole pattern invalid;
every other segment becomes a single fragment. -/
def rebuild : Bool → List (List Char) → Option (List RegexSegment)
  | _, [] => some []
  | lastWasDoublestar, seg :: rest =>
    if 1 < seg.length ∧ seg.all (fun c => c == '*') then
      if seg = ['*', '*'] then
        if lastWasDoublestar then rebuild true rest
        else (rebuild true rest).map (fun l => .doubleStar :: l)
      else none
    else (rebuild false rest).map (fun l => .single (fragOf seg) :: l)

/-- RegexSegment::to_regex_part: the regex fragment of one segment given its
neighbors.  The none results model the unreachable! panic on adjacent
doublestars. -/
def toRegexPart : Option RegexSegment → RegexSegment → Option RegexSegment → Option Reg
  | _, .single x, some (.single _) => some (.cat x slashReg)
  | _, .single x, none => some x
  | _, .single x, some .doubleStar => some x
  | none, .doubleStar, none => some (Reg.opt (.star dotReg))
  | some (.single _), .doubleStar, none => some (Reg.opt (.cat slashReg (.star dotReg)))
  | none, .doubleStar, some (.single _) => some (Reg.opt (.cat (.star dotReg) slashReg))
  | some (.single _), .doubleStar, some (.single _) =>
      some (.alt (.cat slashReg (.cat (.star dotReg) slashReg)) slashReg)
  | _, .doubleStar, some .doubleStar => none
  | some .doubleStar, .doubleStar, _ => none

/-- The assembly loop of Rule::regex_str: walk the segments with the
previous segment and the next segment as context.  none models a panic. -/
def assem : Option RegexSegment → List RegexSegment → Option (List Reg)
  | _, [] => some []
  | prev, s :: rest =>
    match toRegexPart prev s rest.head? with
    | none => none
    | some r => (assem (some s) rest).map (fun l => r :: l)

/-- Rule::regex_str: tokenize, classify, assemble.  The resulting Reg is the
model of the assembled regex string. -/
def regexStr (pattern : String) : Option Reg :=
  match rebuild false (segs pattern.data) with
  | none => none
  | some rebuiltSegments =>
    match assem none rebuiltSegments with
    | none => none
    | some parts => some (cats parts)

/-- A compiled rule: the regex and the retained pattern text. -/
structure Rule where
  regex : Reg
  pattern : String

/-- Rule::new: compile the pattern (the leading- and trailing-slash warnings
are log-only side effects and are not modelled); anchoring is inherent in
rmatch. -/
def Rule.new (pattern : String) : Option Rule :=
  match regexStr pattern with
  | none => none
  | some re => some { regex := re, pattern := pattern }

/-- Rule::is_match. -/
def Rule.isMatch (r : Rule) (s : String) : Bool := rmatch r.regex s.data

/- DatapathIndex (index/mod.rs). -/

/-- Skeleton of a concrete path: split on slashes, parse each token as a
PathSegment skipping failures, replace partition values with a star, and
rejoin.  This is the per-path body of the construction loop of
DatapathIndex::new. -/
def skeletonOf (s : String) : String :=
  let segments := (splitC '/' s.data).filterMap (fun seg => PathSegment.fromStr (String.mk seg))
  String.intercalate "/" ((segments.map normSeg).map PathSegment.toStr)

/-- Append a path to the bucket of its skeleton, inserting a new bucket at
the end if none exists: the entry or_insert push of the construction
loop. -/
def insertPath : List (String × List String) → String → String → List (String × List String)
  | [], k, s => [(k, [s])]
  | (k2, b) :: rest, k, s =>
    if k2 = k then (k2, b ++ [s]) :: rest
    else (k2, b) :: insertPath rest k s

/-- The in-memory index: skeleton buckets and the stored length. -/
structure DatapathIndex where
  patterns : List (String × List String)
  len : Nat

/-- One iteration of the construction loop of DatapathIndex::new. -/
def buildStep (st : List (String × List String) × Nat) (s : String) :
    List (String × List String) × Nat :=
  (insertPath st.1 (skeletonOf s) s, st.2 + 1)

/-- DatapathIndex::new over a finite iterator of paths. -/
def DatapathIndex.new (paths : List String) : DatapathIndex :=
  let st := paths.foldl buildStep ([], 0)
  { patterns := st.1, len := st.2 }

/-- DatapathIndex::is_empty. -/
def DatapathIndex.isEmpty (idx : DatapathIndex) : Bool := idx.len == 0

/-- The token loop of DatapathIndex::query_to_key: parse each token,
skipping failures, and stop at the first bare star or doublestar
constant. -/
def keyLoop : List (List Char) → List PathSegment
  | [] => []
  | seg :: rest =>
    match PathSegment.fromStr (String.mk seg) with
    | none => keyLoop rest
    | some segment =>
      if segment = .constant "*" ∨ segment = .constant "**" then []
      else segment :: keyLoop rest

/-- DatapathIndex::query_to_key: trim whitespace, strip trailing doublestar
text, trim slashes, run the token loop, normalize partition values, and
rejoin. -/
def queryToKey (query : String) : String :=
  let trimmed := trimSlashes (trimEndStarStar (rustTrim query.data))
  let segments := keyLoop (splitC '/' trimmed)
  String.intercalate "/" ((segments.map normSeg).map PathSegment.toStr)

/-- DatapathIndex::query: compile the query, derive the lookup key, keep the
buckets of every skeleton having the key as a prefix (the predictive
search of the trie), and filter by the regex. -/
def DatapathIndex.query (idx : DatapathIndex) (query : String) : Option (List String) :=
  match Rule.new query with
  | none => none
  | some regex =>
    let key := queryToKey query
    some ((((idx.patterns.filter (fun ps => key.data.isPrefixOf ps.1.data)).foldr
      (fun ps acc => ps.2 ++ acc) []).filter (fun s => regex.isMatch s)))

/-- Total number of paths stored across all skeleton buckets. -/
def sumBuckets (m : List (String × List String)) : Nat :=
  (m.map (fun kv => kv.2.length)).sum

/- Predicates used to state the claims. -/

/-- A run of three or more consecutive stars occurs in the list. -/
def hasTripleStar (l : List Char) : Prop := ∃ a b, l = a ++ '*' :: '*' :: '*' :: b

/-- Length of the leading star run. -/
def leadStars : List Char → Nat
  | [] => 0
  | c :: rest => if c = '*' then leadStars rest + 1 else 0

/-- A segment that makes compilation fail: an all-star run of length at
least three. -/
def badSeg (s : List Char) : Prop := 3 ≤ s.length ∧ s.all (fun c => c == '*') = true

/-- The accumulated ordinary segment is empty or contains a non-star
character (invariant of the tokenizer state machine). -/
def curOk (cur : List Char) : Prop := cur = [] ∨ ∃ c ∈ cur, c ≠ '*'

/-- The segment is a doublestar. -/
def isDS : RegexSegment → Prop
  | .doubleStar => True
  | .single _ => False

/-- No two adjacent doublestar segments. -/
def noAdjDS : List RegexSegment → Prop
  | [] => True
  | [_] => True
  | a :: b :: rest => ¬(isDS a ∧ isDS b) ∧ noAdjDS (b :: rest)

/-- The previous-segment context is a doublestar. -/
def prevIsDS : Option RegexSegment → Prop
  | some s => isDS s
  | none => False

/-- The assembly context is safe: the previous segment and the first
remaining segment are not both doublestars. -/
def okStart : Option RegexSegment → List RegexSegment → Prop
  | _, [] => True
  | prev, s :: _ => ¬(prevIsDS prev ∧ isDS s)

/-- The panic-freedom property of the assembly stage for the result of the
classification stage: whenever classification succeeds, the segment list
has no adjacent doublestars and every to_regex_part call succeeds. -/
def assembleOk : Option (List RegexSegment) → Prop
  | none => True
  | some S => noAdjDS S ∧ (assem none S).isSome = true

/- Sanity checks: the embedding reproduces the tests of rule.rs and
mod.rs. -/

example : (Rule.new "file.txt").map (fun r => r.isMatch "file.txt") = some true := by decide
example : (Rule.new "file.txt").map (fun r => r.isMatch "other.txt") = some false := by decide
example : (Rule.new "file.txt").map (fun r => r.isMatch "path/file.txt") = some false := by decide
example : (Rule.new "*.txt").map (fun r => r.isMatch "file.txt") = some true := by decide
example : (Rule.new "*.txt").map (fun r => r.isMatch "nested/file.txt") = some false := by decide
example : (Rule.new "**/*.txt").map (fun r => r.isMatch "dir/subdir/file.txt") = some true := by
  decide
example : (Rule.new "**/*.txt").map (fun r => r.isMatch "file.jpg") = some false := by decide
example : (Rule.new "**/**/**/*.txt").map (fun r => r.isMatch "dir/file.txt") = some true := by
  decide
example : (Rule.new "root/**test").map (fun r => r.isMatch "root/a/test") = some true := by decide
example : (Rule.new "root/**test").map (fun r => r.isMatch "root/xxtest") = some false := by decide
example : (Rule.new "root/test**").map (fun r => r.isMatch "root/test/a") = some true := by decide
example : (Rule.new "root/test**").map (fun r => r.isMatch "root/testxx") = some false := by decide
example : (Rule.new "root/test**file").map (fun r => r.isMatch "root/test/a/file") = some true := by
  decide
example : (Rule.new "root/test**file").map (fun r => r.isMatch "root/testfile") = some false := by
  decide
example : (Rule.new "**/file").map (fun r => r.isMatch "file") = some true := by decide
example : (Rule.new "**/file").map (fun r => r.isMatch "rootfile") = some false := by decide
example : (Rule.new "**.flac").map (fun r => r.isMatch "root/.flac") = some true := by decide
example : (Rule.new "**.flac").map (fun r => r.isMatch "root/test.flac") = some false := by decide
example : (Rule.new "dir//file.txt").map (fun r => r.isMatch "dir/file.txt") = some true := by
  decide
example : (Rule.new "///dir//**//*.txt//").map (fun r => r.isMatch "dir/sub1/sub2/file.txt")
    = some true := by decide
example : (Rule.new "///dir//**//*.txt//").map (fun r => r.isMatch "other/sub/file.txt")
    = some false := by decide
example : (Rule.new "***").isNone = true := by decide

example : (DatapathIndex.new ["web/domain=example.com/ts=1234"]).query
    "web/domain=example.com/ts=1234" = some ["web/domain=example.com/ts=1234"] := by decide
example : (DatapathIndex.new ["web/domain=example.com/ts=1234"]).query
    "web/domain=other.com/ts=1234" = some [] := by decide
example : (DatapathIndex.new
      ["web/domain=example.com/ts=1234", "web/domain=other.com/ts=1234"]).query
    "web/domain=*/ts=1234"
    = some ["web/domain=example.com/ts=1234", "web/domain=other.com/ts=1234"] := by decide
example : (DatapathIndex.new
      ["web/domain=example.com/ts=1234", "api/domain=example.com/ts=1234"]).query
    "*/domain=example.com/ts=1234"
    = some ["web/domain=example.com/ts=1234", "api/domain=example.com/ts=1234"] := by decide
example : (DatapathIndex.new
      ["web/domain=example.com/ts=1234/file1.json",
       "web/domain=example.com/ts=1234/file2.json",
       "web/domain=example.com/ts=5678/file3.json"]).query
    "web/domain=example.com/ts=1234/**"
    = some ["web/domain=example.com/ts=1234/file1.json",
            "web/domain=example.com/ts=1234/file2.json"] := by decide
example : queryToKey "web/domain=*/ts=1234" = "web/domain=*/ts=*" := by decide
example : queryToKey "web/**" = "web" := by decide

/- Claim theorems. -/

/-- C1: query completeness fails on the code.  The pattern consisting of the
letter a followed by a star compiles, and its regex matches the indexed path
ab, yet query returns the empty result list: the lookup key derived from the
query is the two-character string a-star, which is not a prefix of the
skeleton ab, so the prefix search prunes the only bucket and the true match
is lost. -/
theorem c1_query_misses_matching_path :
    (DatapathIndex.new ["ab"]).query "a*" = some []
    ∧ (Rule.new "a*").map (fun r => r.isMatch "ab") = some true := by decide

/-- C2: lookup-key prefix soundness fails on the code.  The glob star-dot-txt
compiles and its regex matches the concrete path file.txt, whose skeleton is
file.txt itself, but query_to_key keeps the star-bearing constant token
verbatim (it only stops at the bare star and bare doublestar tokens), so the
derived key is not a string prefix of the skeleton. -/
theorem c2_lookup_key_prunes_true_match :
    queryToKey "*.txt" = "*.txt"
    ∧ skeletonOf "file.txt" = "file.txt"
    ∧ ("*.txt".data.isPrefixOf "file.txt".data) = false
    ∧ (Rule.new "*.txt").map (fun r => r.isMatch "file.txt") = some true := by decide

lemma sumBuckets_insertPath (m : List (String × List String)) (k s : String) :
    sumBuckets (insertPath m k s) = sumBuckets m + 1 := by
  induction m with
  | nil => simp [insertPath, sumBuckets]
  | cons kv rest ih =>
    obtain ⟨k2, b⟩ := kv
    by_cases h : k2 = k
    · simp [insertPath, h, sumBuckets]
      omega
    · simp only [insertPath, if_neg h, sumBuckets, List.map_cons, List.sum_cons] at *
      omega

lemma foldl_buildStep (paths : List String) :
    ∀ st : List (String × List String) × Nat,
      (paths.foldl buildStep st).2 = st.2 + paths.length
      ∧ sumBuckets (paths.foldl buildStep st).1 = sumBuckets st.1 + paths.length := by
  induction paths with
  | nil => intro st; simp
  | cons p ps ih =>
    intro st
    have h := ih (buildStep st p)
    simp only [List.foldl_cons, List.length_cons]
    refine ⟨?_, ?_⟩
    · rw [h.1]; simp [buildStep]; omega
    · rw [h.2]; simp [buildStep, sumBuckets_insertPath]; omega

/-- C4: for every finite input list of path strings, the stored length
equals the number of supplied strings, equals the sum of all bucket
lengths, and is_empty holds exactly when the length is zero. -/
theorem c4_count_invariant (paths : List String) :
    (DatapathIndex.new paths).len = paths.length
    ∧ (DatapathIndex.new paths).len = sumBuckets (DatapathIndex.new paths).patterns
    ∧ ((DatapathIndex.new paths).isEmpty = true ↔ (DatapathIndex.new paths).len = 0) := by
  have h := foldl_buildStep paths ([], 0)
  refine ⟨?_, ?_, ?_⟩
  · simpa [DatapathIndex.new] using h.1
  · simp only [DatapathIndex.new]
    rw [h.1, h.2]
    simp [sumBuckets]
  · simp [DatapathIndex.isEmpty]

/-- C6: the two patterns in the claim compile to the same segment list and
hence to the same regex, so matching agrees on every candidate. -/
theorem c6_slashless_doublestar_equiv (c : String) :
    (Rule.new "root**test").map (fun r => r.isMatch c)
    = (Rule.new "root/**/test").map (fun r => r.isMatch c) := by
  have h : regexStr "root/**/test" = regexStr "root**test" := rfl
  simp only [Rule.new, h]
  cases hE : regexStr "root**test" with
  | none => rfl
  | some e => simp [Rule.isMatch]

lemma splitC_ne_nil (sep : Char) (l : List Char) : splitC sep l ≠ [] := by
  induction l with
  | nil => simp [splitC]
  | cons c rest ih =>
    simp only [splitC]
    split
    · simp
    · cases h : splitC sep rest with
      | nil => simp
      | cons t ts => simp

lemma joinC_splitC (sep : Char) (l : List Char) : joinC sep (splitC sep l) = l := by
  induction l with
  | nil => rfl
  | cons c rest ih =>
    simp only [splitC]
    by_cases hc : c = sep
    · rw [if_pos hc]
      cases hs : splitC sep rest with
      | nil => exact absurd hs (splitC_ne_nil sep rest)
      | cons y t =>
        rw [hs] at ih
        simp only [joinC, List.nil_append]
        rw [ih, hc]
    · rw [if_neg hc]
      cases hs : splitC sep rest with
      | nil => exact absurd hs (splitC_ne_nil sep rest)
      | cons y t =>
        rw [hs] at ih
        cases t with
        | nil => simpa [joinC] using congrArg (fun z => c :: z) ih
        | cons z zs =>
          simp only [joinC, List.cons_append] at ih ⊢
          rw [← ih]

lemma splitC_first (sep : Char) (l : List Char) (h : sep ∈ l) :
    ∃ rest, splitC sep l = (l.takeWhile (fun x => !(x == sep))) :: rest
      ∧ joinC sep rest = (l.dropWhile (fun x => !(x == sep))).tail := by
  induction l with
  | nil => cases h
  | cons c cs ih =>
    by_cases hc : c = sep
    · refine ⟨splitC sep cs, ?_, ?_⟩
      · simp [splitC, hc, List.takeWhile_cons]
      · simp [List.dropWhile_cons, hc, joinC_splitC]
    · have hmem : sep ∈ cs := by
        cases h with
        | head => exact absurd rfl hc
        | tail _ h2 => exact h2
      obtain ⟨rest, h1, h2⟩ := ih hmem
      refine ⟨rest, ?_, ?_⟩
      · simp [splitC, hc, h1, List.takeWhile_cons]
      · rw [h2]
        simp [List.dropWhile_cons, hc]

lemma head_dropWhile_eq (sep : Char) (l : List Char) (h : sep ∈ l) :
    l.dropWhile (fun x => !(x == sep))
      = sep :: (l.dropWhile (fun x => !(x == sep))).tail := by
  induction l with
  | nil => cases h
  | cons c cs ih =>
    by_cases hc : c = sep
    · simp [List.dropWhile_cons, hc]
    · have hmem : sep ∈ cs := by
        cases h with
        | head => exact absurd rfl hc
        | tail _ h2 => exact h2
      simpa [List.dropWhile_cons, hc] using ih hmem

lemma contains_eq_true_of_mem {l : List Char} {c : Char} (h : c ∈ l) :
    l.contains c = true := by
  simpa using h

/-- C8: a nonempty, newline-free string containing an equals sign parses as
a partition segment whose key is the text before the first equals sign and
whose value is everything after it, later equals signs preserved. -/
theorem c8_first_equals_split (s : String) (h1 : s.data ≠ []) (h2 : '\n' ∉ s.data)
    (h3 : '=' ∈ s.data) :
    PathSegment.fromStr s
      = some (.value (String.mk (s.data.takeWhile (fun x => !(x == '='))))
          (String.mk ((s.data.dropWhile (fun x => !(x == '='))).tail))) := by
  obtain ⟨rest, hsplit, hjoin⟩ := splitC_first '=' s.data h3
  have hnl : s.data.contains '\n' = false := by
    simpa using h2
  have hne : s.data.isEmpty = false := by
    simpa [List.isEmpty_iff] using h1
  have heq : s.data.contains '=' = true := contains_eq_true_of_mem h3
  rw [PathSegment.fromStr, hnl, hne, heq]
  simp only [Bool.false_eq_true, if_false, if_true, hsplit, hjoin]

/-- C8 witness at the concrete input from the claim. -/
theorem c8_first_equals_split_witness :
    PathSegment.fromStr "a=b=c"
      = some (.value (String.mk ("a=b=c".data.takeWhile (fun x => !(x == '='))))
          (String.mk (("a=b=c".data.dropWhile (fun x => !(x == '='))).tail)))
    ∧ String.mk ("a=b=c".data.takeWhile (fun x => !(x == '='))) = "a"
    ∧ String.mk (("a=b=c".data.dropWhile (fun x => !(x == '='))).tail) = "b=c" :=
  ⟨c8_first_equals_split "a=b=c" (by decide) (by decide) (by decide), by decide, by decide⟩

/-- C9: formatting a successfully parsed segment reproduces the original
string exactly. -/
theorem c9_segment_roundtrip (s : String) (seg : PathSegment)
    (h : PathSegment.fromStr s = some seg) : seg.toStr = s := by
  rw [PathSegment.fromStr] at h
  by_cases hnl : s.data.contains '\n' = true
  · rw [hnl] at h; simp at h
  · rw [Bool.not_eq_true] at hnl
    rw [hnl] at h
    by_cases hne : s.data.isEmpty = true
    · rw [hne] at h; simp at h
    · rw [Bool.not_eq_true] at hne
      rw [hne] at h
      by_cases heq : s.data.contains '=' = true
      · rw [heq] at h
        simp only [Bool.false_eq_true, if_false, if_true] at h
        have h3 : '=' ∈ s.data := by simpa using heq
        obtain ⟨rest, hsplit, hjoin⟩ := splitC_first '=' s.data h3
        rw [hsplit] at h
        obtain rfl : seg
            = .value (String.mk (s.data.takeWhile (fun x => !(x == '='))))
              (String.mk (joinC '=' rest)) := by
          exact (Option.some_inj.mp h).symm
        have hd : s.data
            = s.data.takeWhile (fun x => !(x == '='))
              ++ '=' :: (s.data.dropWhile (fun x => !(x == '='))).tail := by
          conv_lhs => rw [← List.takeWhile_append_dropWhile
            (p := fun x => !(x == '=')) (l := s.data),
            head_dropWhile_eq '=' s.data h3]
        apply String.ext
        simp only [PathSegment.toStr, String.data_append, hjoin]
        conv_rhs => rw [hd]
        simp [List.append_assoc]
      · rw [Bool.not_eq_true] at heq
        rw [heq] at h
        simp only [Bool.false_eq_true, if_false] at h
        obtain rfl : seg = .constant s := (Option.some_inj.mp h).symm
        rfl

/-- C9 witness at a concrete multi-equals input. -/
theorem c9_segment_roundtrip_witness :
    PathSegment.fromStr "x=1=2" = some (.value "x" "1=2")
    ∧ PathSegment.toStr (.value "x" "1=2") = "x=1=2" :=
  ⟨by decide, c9_segment_roundtrip "x=1=2" (.value "x" "1=2") (by decide)⟩

lemma foldl_deriv_emp (l : List Char) : l.foldl deriv .emp = .emp := by
  induction l with
  | nil => rfl
  | cons c t ih => simpa [deriv] using ih

lemma rmatch_eps_iff (l : List Char) : rmatch .eps l = true ↔ l = [] := by
  cases l with
  | nil => simp [rmatch, nullable]
  | cons c t =>
    simp only [rmatch, List.foldl_cons]
    rw [show deriv .eps c = .emp from rfl, foldl_deriv_emp]
    simp [nullable]

lemma string_eq_empty_iff (c : String) : c = "" ↔ c.data = [] := by
  constructor
  · intro h; rw [h]
  · intro h
    cases c with
    | mk d => cases h; rfl

lemma segs_all_slash (l : List Char) (h : ∀ c ∈ l, c = '/') : segsA l [] 0 = [] := by
  induction l with
  | nil => rfl
  | cons c rest ih =>
    have hc : c = '/' := h c (by simp)
    subst hc
    simp only [segsA, if_neg (by decide : ¬('/' = '*')), if_pos rfl]
    rw [ih (fun x hx => h x (by simp [hx]))]
    rfl

/-- C10: the empty pattern and every all-slash pattern compile successfully,
and the resulting rule matches exactly the empty candidate string. -/
theorem c10_empty_pattern_matches_only_empty (p : String) (h : ∀ c ∈ p.data, c = '/') :
    (Rule.new p).isSome = true
    ∧ ∀ c : String, ((Rule.new p).map (fun r => r.isMatch c) = some true ↔ c = "") := by
  have hs : segs p.data = [] := segs_all_slash p.data h
  have hre : regexStr p = some (cats []) := by
    rw [regexStr, hs]
    rfl
  constructor
  · simp [Rule.new, hre]
  · intro c
    have hnew : Rule.new p = some { regex := Reg.eps, pattern := p } := by
      unfold Rule.new
      rw [hre]
      rfl
    rw [hnew]
    simp only [Option.map_some', Rule.isMatch, Option.some_inj]
    rw [rmatch_eps_iff, string_eq_empty_iff]

/-- C10 witness at the all-slash pattern of two slashes. -/
theorem c10_empty_pattern_matches_only_empty_witness :
    (∀ c ∈ ("//" : String).data, c = '/')
    ∧ (Rule.new "//").isSome = true
    ∧ ((Rule.new "//").map (fun r => r.isMatch "") = some true ↔ ("" : String) = "") :=
  ⟨by decide, (c10_empty_pattern_matches_only_empty "//" (by decide)).1,
    (c10_empty_pattern_matches_only_empty "//" (by decide)).2 ""⟩

lemma noAdjDS_tail {a : RegexSegment} {l : List RegexSegment} (h : noAdjDS (a :: l)) :
    noAdjDS l := by
  cases l with
  | nil => trivial
  | cons b t => exact h.2

lemma noAdjDS_head {b : RegexSegment} {t : List RegexSegment}
    (h : noAdjDS (RegexSegment.doubleStar :: b :: t)) : ¬ isDS b := by
  intro hb
  exact h.1 ⟨trivial, hb⟩

lemma toRegexPart_single_isSome :
    ∀ (prev : Option RegexSegment) (r : Reg) (next : Option RegexSegment),
      (toRegexPart prev (.single r) next).isSome = true
  | none, _, none => rfl
  | none, _, some (.single _) => rfl
  | none, _, some .doubleStar => rfl
  | some (.single _), _, none => rfl
  | some (.single _), _, some (.single _) => rfl
  | some (.single _), _, some .doubleStar => rfl
  | some .doubleStar, _, none => rfl
  | some .doubleStar, _, some (.single _) => rfl
  | some .doubleStar, _, some .doubleStar => rfl

lemma toRegexPart_ds_isSome :
    ∀ (prev next : Option RegexSegment), ¬ prevIsDS prev →
      (∀ s, next = some s → ¬ isDS s) →
      (toRegexPart prev .doubleStar next).isSome = true
  | none, none, _, _ => rfl
  | none, some (.single _), _, _ => rfl
  | none, some .doubleStar, _, hn => absurd trivial (hn _ rfl)
  | some (.single _), none, _, _ => rfl
  | some (.single _), some (.single _), _, _ => rfl
  | some (.single _), some .doubleStar, _, hn => absurd trivial (hn _ rfl)
  | some .doubleStar, _, hp, _ => absurd trivial hp

lemma okStart_none (S : List RegexSegment) : okStart none S := by
  cases S with
  | nil => trivial
  | cons s t => exact fun hp => hp.1

lemma assem_isSome : ∀ (S : List RegexSegment) (prev : Option RegexSegment),
    noAdjDS S → okStart prev S → (assem prev S).isSome = true := by
  intro S
  induction S with
  | nil => intro prev _ _; rfl
  | cons s rest ih =>
    intro prev hadj hok
    have hpart : (toRegexPart prev s rest.head?).isSome = true := by
      cases s with
      | single r => exact toRegexPart_single_isSome prev r rest.head?
      | doubleStar =>
        refine toRegexPart_ds_isSome prev rest.head? (fun hp => hok ⟨hp, trivial⟩) ?_
        intro s2 hs2 hds
        cases rest with
        | nil => simp at hs2
        | cons b t =>
          simp only [List.head?_cons, Option.some_inj] at hs2
          exact noAdjDS_head hadj (hs2 ▸ hds)
    obtain ⟨r, hr⟩ := Option.isSome_iff_exists.mp hpart
    have hrec : (assem (some s) rest).isSome = true := by
      refine ih (some s) (noAdjDS_tail hadj) ?_
      cases rest with
      | nil => trivial
      | cons b t =>
        intro hp
        cases s with
        | single r2 => exact hp.1
        | doubleStar => exact noAdjDS_head hadj hp.2
    rw [assem, hr]
    simpa using hrec

lemma rebuild_ok : ∀ (L : List (List Char)) (flag : Bool) (S : List RegexSegment),
    rebuild flag L = some S →
      noAdjDS S ∧ (flag = true → okStart (some .doubleStar) S) := by
  intro L
  induction L with
  | nil =>
    intro flag S h
    simp only [rebuild, Option.some_inj] at h
    subst h
    exact ⟨trivial, fun _ => trivial⟩
  | cons seg rest ih =>
    intro flag S h
    rw [rebuild] at h
    by_cases h1 : 1 < seg.length ∧ (seg.all fun c => c == '*') = true
    · rw [if_pos h1] at h
      by_cases h2 : seg = ['*', '*']
      · rw [if_pos h2] at h
        cases flag with
        | true =>
          simp only [if_true] at h
          obtain ⟨ha, hb⟩ := ih true S h
          exact ⟨ha, fun _ => hb rfl⟩
        | false =>
          simp only [Bool.false_eq_true, if_false] at h
          obtain ⟨S1, hS1, rfl⟩ := Option.map_eq_some'.mp h
          obtain ⟨ha, hb⟩ := ih true S1 hS1
          refine ⟨?_, fun hf => by cases hf⟩
          cases S1 with
          | nil => trivial
          | cons b t => exact ⟨fun hp => hb rfl ⟨trivial, hp.2⟩, ha⟩
      · rw [if_neg h2] at h
        cases h
    · rw [if_neg h1] at h
      obtain ⟨S1, hS1, rfl⟩ := Option.map_eq_some'.mp h
      obtain ⟨ha, _⟩ := ih false S1 hS1
      refine ⟨?_, fun _ hp => hp.2⟩
      cases S1 with
      | nil => trivial
      | cons b t => exact ⟨fun hp => hp.1, ha⟩

/-- C5: compilation never reaches the unreachable branch.  Whenever the
classification stage of regex_str succeeds, the produced segment list never
has two adjacent doublestar segments, and the assembly stage succeeds on it
(every to_regex_part call returns a fragment), so Rule::new always returns
either the invalid-pattern signal or a compiled rule. -/
theorem c5_assembly_total_no_adjacent_doublestar (p : String) :
    assembleOk (rebuild false (segs p.data)) := by
  cases h : rebuild false (segs p.data) with
  | none => trivial
  | some S =>
    obtain ⟨h1, _⟩ := rebuild_ok _ _ _ h
    exact ⟨h1, assem_isSome S none h1 (okStart_none S)⟩

lemma regexStr_eq_none_iff (p : String) :
    regexStr p = none ↔ rebuild false (segs p.data) = none := by
  cases h : rebuild false (segs p.data) with
  | none => simp [regexStr, h]
  | some S =>
    obtain ⟨h1, _⟩ := rebuild_ok _ _ _ h
    obtain ⟨parts, hparts⟩ :=
      Option.isSome_iff_exists.mp (assem_isSome S none h1 (okStart_none S))
    simp [regexStr, h, hparts]

lemma ruleNew_none_iff (p : String) : Rule.new p = none ↔ regexStr p = none := by
  cases h : regexStr p with
  | none => simp [Rule.new, h]
  | some re => simp [Rule.new, h]

lemma hasTripleStar_nil : ¬ hasTripleStar [] := by
  rintro ⟨a, b, h⟩
  cases a <;> simp at h

lemma leadStars_two {l : List Char} (h : 2 ≤ leadStars l) : ∃ t, l = '*' :: '*' :: t := by
  cases l with
  | nil => simp [leadStars] at h
  | cons c t =>
    by_cases hc : c = '*'
    · subst hc
      cases t with
      | nil => simp [leadStars] at h
      | cons c2 t2 =>
        by_cases hc2 : c2 = '*'
        · subst hc2; exact ⟨t2, rfl⟩
        · simp [leadStars, hc2] at h
    · simp [leadStars, hc] at h

lemma triple_cons (c : Char) (l : List Char) :
    hasTripleStar (c :: l) ↔ (c = '*' ∧ 2 ≤ leadStars l) ∨ hasTripleStar l := by
  constructor
  · rintro ⟨a, b, h⟩
    cases a with
    | nil =>
      simp only [List.nil_append, List.cons.injEq] at h
      obtain ⟨rfl, rfl⟩ := h
      refine Or.inl ⟨rfl, ?_⟩
      simp [leadStars]
    | cons a0 a1 =>
      simp only [List.cons_append, List.cons.injEq] at h
      exact Or.inr ⟨a1, b, h.2⟩
  · rintro (⟨rfl, h2⟩ | ⟨a, b, rfl⟩)
    · obtain ⟨t, rfl⟩ := leadStars_two h2
      exact ⟨[], t, rfl⟩
    · exact ⟨c :: a, b, rfl⟩

lemma triple_of_leadStars {l : List Char} (h : 3 ≤ leadStars l) : hasTripleStar l := by
  cases l with
  | nil => simp [leadStars] at h
  | cons c t =>
    by_cases hc : c = '*'
    · subst hc
      refine (triple_cons '*' t).mpr (Or.inl ⟨rfl, ?_⟩)
      have hl : leadStars ('*' :: t) = leadStars t + 1 := by simp [leadStars]
      rw [hl] at h
      omega
    · simp [leadStars, hc] at h

lemma bad_cons (x : List Char) (X : List (List Char)) :
    (∃ s ∈ x :: X, badSeg s) ↔ badSeg x ∨ ∃ s ∈ X, badSeg s := by
  constructor
  · rintro ⟨s, hs, hb⟩
    rcases List.mem_cons.mp hs with rfl | h
    · exact Or.inl hb
    · exact Or.inr ⟨s, h, hb⟩
  · rintro (hb | ⟨s, hs, hb⟩)
    · exact ⟨x, List.mem_cons_self x X, hb⟩
    · exact ⟨s, List.mem_cons_of_mem x hs, hb⟩

lemma bad_append (A B : List (List Char)) :
    (∃ s ∈ A ++ B, badSeg s) ↔ (∃ s ∈ A, badSeg s) ∨ (∃ s ∈ B, badSeg s) := by
  constructor
  · rintro ⟨s, hs, hb⟩
    rcases List.mem_append.mp hs with h | h
    · exact Or.inl ⟨s, h, hb⟩
    · exact Or.inr ⟨s, h, hb⟩
  · rintro (⟨s, hs, hb⟩ | ⟨s, hs, hb⟩)
    · exact ⟨s, List.mem_append.mpr (Or.inl hs), hb⟩
    · exact ⟨s, List.mem_append.mpr (Or.inr hs), hb⟩

lemma badSeg_mem_star {s : List Char} (hb : badSeg s) {c : Char} (hc : c ∈ s) : c = '*' := by
  have := List.all_eq_true.mp hb.2 c hc
  simpa using this

lemma flush1_not_bad {cur : List Char} (hc : curOk cur) : ¬ ∃ s ∈ flush1 cur, badSeg s := by
  rintro ⟨s, hs, hb⟩
  unfold flush1 at hs
  by_cases he : cur.isEmpty = true
  · rw [if_pos he] at hs; simp at hs
  · rw [if_neg he] at hs
    simp only [List.mem_singleton] at hs
    subst hs
    rcases hc with rfl | ⟨c, hcm, hcn⟩
    · simp at he
    · exact hcn (badSeg_mem_star hb hcm)

lemma replicate_badSeg (k : Nat) : badSeg (List.replicate k '*') ↔ 3 ≤ k := by
  unfold badSeg
  simp [List.all_eq_true, List.mem_replicate]

lemma flushSegs_bad {cur : List Char} (k : Nat) (hc : curOk cur) :
    (∃ s ∈ flushSegs cur k, badSeg s) ↔ 3 ≤ k := by
  unfold flushSegs
  by_cases hk : 2 ≤ k
  · rw [if_pos hk, bad_append]
    constructor
    · rintro (h | h)
      · exact absurd h (flush1_not_bad hc)
      · rw [bad_cons] at h
        rcases h with h | ⟨s, hs, _⟩
        · exact (replicate_badSeg k).mp h
        · simp at hs
    · intro h3
      exact Or.inr ((bad_cons _ _).mpr (Or.inl ((replicate_badSeg k).mpr h3)))
  · rw [if_neg hk]
    constructor
    · rintro ⟨s, hs, hb⟩
      exfalso
      unfold flush1 at hs
      by_cases he : (cur ++ List.replicate k '*').isEmpty = true
      · rw [if_pos he] at hs; simp at hs
      · rw [if_neg he] at hs
        simp only [List.mem_singleton] at hs
        subst hs
        rcases hc with rfl | ⟨c, hcm, hcn⟩
        · have h3 := hb.1
          simp only [List.nil_append, List.length_replicate] at h3
          omega
        · exact hcn (badSeg_mem_star hb (by simp [hcm]))
    · intro h3
      exfalso
      omega

lemma segsA_bad : ∀ (l cur : List Char) (k : Nat), curOk cur →
    ((∃ s ∈ segsA l cur k, badSeg s) ↔ (hasTripleStar l ∨ 3 ≤ k + leadStars l)) := by
  intro l
  induction l with
  | nil =>
    intro cur k hc
    rw [show segsA [] cur k = flushSegs cur k from rfl, flushSegs_bad k hc]
    simp only [leadStars, Nat.add_zero]
    constructor
    · exact fun h => Or.inr h
    · rintro (ht | hk)
      · exact absurd ht hasTripleStar_nil
      · exact hk
  | cons c rest ih =>
    intro cur k hc
    simp only [segsA]
    by_cases h1 : c = '*'
    · subst h1
      rw [if_pos rfl, ih cur (k + 1) hc, triple_cons]
      have hl : leadStars ('*' :: rest) = leadStars rest + 1 := by
        simp [leadStars]
      rw [hl]
      constructor
      · rintro (ht | hk)
        · exact Or.inl (Or.inr ht)
        · exact Or.inr (by omega)
      · rintro ((⟨-, h2⟩ | ht) | hk)
        · exact Or.inr (by omega)
        · exact Or.inl ht
        · exact Or.inr (by omega)
    · rw [if_neg h1]
      have hlz : leadStars (c :: rest) = 0 := by
        simp [leadStars, h1]
      by_cases h2 : c = '/'
      · rw [if_pos h2, bad_append, flushSegs_bad k hc, ih [] 0 (Or.inl rfl), triple_cons, hlz]
        constructor
        · rintro (hk | ht | hl3)
          · exact Or.inr (by omega)
          · exact Or.inl (Or.inr ht)
          · exact Or.inl (Or.inr (triple_of_leadStars (by omega)))
        · rintro ((⟨hcs, -⟩ | ht) | hk)
          · exact absurd hcs h1
          · exact Or.inr (Or.inl ht)
          · exact Or.inl (by omega)
      · rw [if_neg h2]
        by_cases h3 : 2 ≤ k
        · rw [if_pos h3, bad_append, bad_append, bad_cons, replicate_badSeg,
            ih [c] 0 (Or.inr ⟨c, by simp, h1⟩), triple_cons, hlz]
          constructor
          · rintro ((hf | h3k | ⟨s, hs, -⟩) | ht | hls)
            · exact absurd hf (flush1_not_bad hc)
            · exact Or.inr (by omega)
            · simp at hs
            · exact Or.inl (Or.inr ht)
            · exact Or.inl (Or.inr (triple_of_leadStars (by omega)))
          · rintro ((⟨hcs, -⟩ | ht) | hk)
            · exact absurd hcs h1
            · exact Or.inr (Or.inl ht)
            · exact Or.inl (Or.inr (Or.inl (by omega)))
        · rw [if_neg h3,
            ih (cur ++ List.replicate k '*' ++ [c]) 0 (Or.inr ⟨c, by simp, h1⟩),
            triple_cons, hlz]
          constructor
          · rintro (ht | hls)
            · exact Or.inl (Or.inr ht)
            · exact Or.inl (Or.inr (triple_of_leadStars (by omega)))
          · rintro ((⟨hcs, -⟩ | ht) | hk)
            · exact absurd hcs h1
            · exact Or.inl ht
            · exfalso; omega

lemma segs_bad (p : List Char) : (∃ s ∈ segs p, badSeg s) ↔ hasTripleStar p := by
  rw [segs, segsA_bad p [] 0 (Or.inl rfl)]
  constructor
  · rintro (ht | hls)
    · exact ht
    · exact triple_of_leadStars (by omega)
  · exact fun ht => Or.inl ht

lemma allstar_len2 {s : List Char} (hall : (s.all fun c => c == '*') = true)
    (hl : s.length = 2) : s = ['*', '*'] := by
  cases s with
  | nil => simp at hl
  | cons a t =>
    cases t with
    | nil => simp at hl
    | cons b t2 =>
      cases t2 with
      | nil =>
        have ha := List.all_eq_true.mp hall a (by simp)
        have hb := List.all_eq_true.mp hall b (by simp)
        simp only [beq_iff_eq] at ha hb
        rw [ha, hb]
      | cons d t3 => simp at hl

lemma badSeg_of_allstar {seg : List Char}
    (h1 : 1 < seg.length ∧ (seg.all fun c => c == '*') = true)
    (h2 : seg ≠ ['*', '*']) : badSeg seg := by
  refine ⟨?_, h1.2⟩
  rcases Nat.lt_or_ge seg.length 3 with h | h
  · have hl2 : seg.length = 2 := by omega
    exact absurd (allstar_len2 h1.2 hl2) h2
  · exact h

lemma rebuild_eq_none_iff : ∀ (L : List (List Char)) (flag : Bool),
    rebuild flag L = none ↔ ∃ s ∈ L, badSeg s := by
  intro L
  induction L with
  | nil => intro flag; simp [rebuild]
  | cons seg rest ih =>
    intro flag
    rw [rebuild, bad_cons]
    by_cases h1 : 1 < seg.length ∧ (seg.all fun c => c == '*') = true
    · rw [if_pos h1]
      by_cases h2 : seg = ['*', '*']
      · rw [if_pos h2]
        have hnb : ¬ badSeg seg := by
          rw [h2]
          intro hb
          simpa using hb.1
        have hrest : rebuild true rest = none ↔ badSeg seg ∨ ∃ s ∈ rest, badSeg s := by
          rw [ih true]
          constructor
          · exact fun h => Or.inr h
          · rintro (hb | h)
            · exact absurd hb hnb
            · exact h
        cases flag with
        | true =>
          simp only [if_true]
          exact hrest
        | false =>
          simp only [Bool.false_eq_true, if_false]
          rw [Option.map_eq_none']
          exact hrest
      · rw [if_neg h2]
        constructor
        · intro _
          exact Or.inl (badSeg_of_allstar h1 h2)
        · intro _
          rfl
    · rw [if_neg h1]
      rw [Option.map_eq_none', ih false]
      have hnb : ¬ badSeg seg := fun hb => h1 ⟨by have := hb.1; omega, hb.2⟩
      constructor
      · exact fun h => Or.inr h
      · rintro (hb | h)
        · exact absurd hb hnb
        · exact h

/-- C3: Rule::new returns the invalid-pattern signal exactly for the
patterns containing a run of three or more consecutive stars, and query
returns the invalid-pattern signal exactly when Rule::new does; an empty
result list is a distinct value of the option type. -/
theorem c3_invalid_pattern_signalling :
    (∀ p : String, Rule.new p = none ↔ hasTripleStar p.data)
    ∧ ∀ (idx : DatapathIndex) (g : String), idx.query g = none ↔ Rule.new g = none := by
  constructor
  · intro p
    rw [ruleNew_none_iff, regexStr_eq_none_iff, rebuild_eq_none_iff, segs_bad]
  · intro idx g
    cases h : Rule.new g with
    | none => simp [DatapathIndex.query, h]
    | some r => simp [DatapathIndex.query, h]

/-- C7: the rule compiled from the pattern root-slash-doublestar matches
root/file and root (the doublestar may contribute nothing) and matches
neither dir/file nor rootfile. -/
theorem c7_trailing_doublestar_nullable :
    (Rule.new "root/**").map (fun r =>
      (r.isMatch "root/file", r.isMatch "root", r.isMatch "dir/file", r.isMatch "rootfile"))
    = some (true, true, false, false) := by decide

end Datapath
